import Mathlib

/-!
Verification of the conversational-event buffering and extraction-trigger core
of the openclaw plugin (src/index.ts).

The embedding models:
  * the recall-path relevance filter (`looksLikeCasualChat`, `hasMemoryKeywords`
    and the length gate of the before_agent_start hook),
  * the per-channel message buffers, silence timers, flush coordinator
    (`flushBuffer`), the agent_end capture hook, the timer-fire callback and
    the shutdown drain of the registered service,
as pure functions over an explicit `PluginState`.  JS `Map`s become ordered
association lists with JS `Map.set` / `Map.delete` semantics (insertion order
preserved, set on an existing key keeps its position), `setTimeout` handles
become numbered `TimerEntry` values whose `live` flag is cleared by
`clearTimeout`, and the single suspending operation (the extraction HTTP call)
is recorded in a call log together with a Boolean oracle for its outcome
(success or transport failure), which is the only effect the try/catch in
`flushBuffer` distinguishes.
-/

set_option maxRecDepth 20000

-- ===========================================================================
-- RelevanceFilter (src/index.ts:1092-1132 and the hook gate at 666-669)
-- ===========================================================================

/-- JS word-character class `\w` = [A-Za-z0-9_], used by the `\b` boundary in
the casual-chat regexes of `looksLikeCasualChat`. -/
def wordChar (c : Char) : Bool := c.isAlpha || c.isDigit || c == '_'

/-- Anchored match of a literal alternative followed by a `\b` word boundary:
`litThenBoundary lit s` holds iff `s` starts with `lit` and the next character
(if any) is not a word character.  Every alternative guarded by `\b` in the
source patterns ends in a word character, so this is exactly `^lit\b`. -/
def litThenBoundary : List Char → List Char → Bool
  | [], [] => true
  | [], c :: _ => !wordChar c
  | _ :: _, [] => false
  | a :: as, c :: cs => a == c && litThenBoundary as cs

/-- Anchored match of a plain literal (regex `^lit` with no boundary). -/
def litAt : List Char → List Char → Bool
  | [], _ => true
  | _ :: _, [] => false
  | a :: as, c :: cs => a == c && litAt as cs

/-- JS `String.prototype.includes`: `listContainsSub s pat` holds iff `pat`
occurs as a contiguous substring of `s`. -/
def listContainsSub : List Char → List Char → Bool
  | [], pat => pat.isEmpty
  | c :: cs, pat => litAt pat (c :: cs) || listContainsSub cs pat

/-- The leading-token alternatives of `casualPatterns` (src/index.ts:1097-1104)
that are followed by a `\b` boundary: greetings, thanks, acknowledgements,
farewells, yes/no and the "how are you" group. -/
def casualWordAlts : List String :=
  ["hi", "hey", "hello", "yo", "sup", "hola", "howdy", "hiya", "heya",
   "thanks", "thank you", "thx", "ty",
   "ok", "okay", "sure", "got it", "sounds good", "cool", "nice", "great",
   "awesome", "perfect",
   "bye", "goodbye", "see you", "later", "gn", "ttyl",
   "yes", "no", "yep", "nope", "yeah", "nah",
   "how are you", "what\x27s up", "whats up", "wassup"]

/-- Second group of the `good\s*(morning|afternoon|evening|night)\b` pattern. -/
def goodTimeAlts : List String := ["morning", "afternoon", "evening", "night"]

/-- Alternatives of the laughter/emoji opener pattern, which carries no `\b`. -/
def casualOpenAlts : List String := ["lol", "lmao", "haha", "heh", "😂", "👍", "🙏"]

/-- Disjunction of the eight `casualPatterns` regexes, each anchored at the
start of the (lowercased, trimmed) text. -/
def matchesCasualPattern (s : List Char) : Bool :=
  casualWordAlts.any (fun w => litThenBoundary w.data s) ||
  (litAt "good".data s &&
    goodTimeAlts.any (fun w =>
      litThenBoundary w.data (List.dropWhile Char.isWhitespace (s.drop 4)))) ||
  casualOpenAlts.any (fun w => litAt w.data s)

/-- The fixed keyword list of `hasMemoryKeywords` (src/index.ts:1123-1130). -/
def memoryKeywords : List String :=
  ["decide", "decision", "chose", "choice", "agreed", "approved",
   "committed", "plan", "strategy", "priorit", "delegate",
   "what did", "when did", "who said", "remember", "last time",
   "previously", "before", "history", "recap", "summary",
   "meeting", "discussed", "update", "status", "progress",
   "deadline", "schedule", "budget", "roadmap", "milestone"]

/-- Model of `hasMemoryKeywords` (src/index.ts:1122-1132): the (already lowercased)
text contains one of the fixed keywords as a substring. -/
def hasMemoryKeywords (l : List Char) : Bool :=
  memoryKeywords.any (fun kw => listContainsSub l kw.data)

/-- Model of `text.toLowerCase().trim()` from `looksLikeCasualChat`, on the character
list of the string. -/
def jsNormalize (s : String) : List Char :=
  (((s.data.map Char.toLower).dropWhile Char.isWhitespace).reverse.dropWhile
      Char.isWhitespace).reverse

/-- Model of `looksLikeCasualChat` (src/index.ts:1092-1117): a leading-token casual
pattern matches, or the trimmed text is shorter than 40 characters with no
question mark and no memory keyword. -/
def looksLikeCasualChat (text : String) : Bool :=
  let lower := jsNormalize text
  matchesCasualPattern lower ||
    (decide (lower.length < 40) && !(lower.contains '?') &&
      !(hasMemoryKeywords lower))

/-- The recall-path gate of the before_agent_start hook (src/index.ts:666-669):
the hook proceeds to the context lookup iff the candidate text is non-empty,
at least 30 characters long, and not classified as casual chat. -/
def shouldConsultMemory (userMessage : String) : Bool :=
  if userMessage = "" ∨ userMessage.length < 30 then false
  else if looksLikeCasualChat userMessage then false
  else true

-- ===========================================================================
-- Data model (src/index.ts:78-91)
-- ===========================================================================

/-- Constant `SILENCE_TIMEOUT_MS` (src/index.ts:87). -/
def SILENCE_TIMEOUT_MS : Nat := 5 * 60 * 1000

/-- Constant `MAX_BUFFER_SIZE` (src/index.ts:88). -/
def MAX_BUFFER_SIZE : Nat := 20

/-- A buffered conversation message (src/index.ts:78-82). -/
structure BufferedMessage where
  role : String
  content : String
  timestamp : String
deriving DecidableEq, Repr

/-- The `content` field of an inbound event message: a plain string, an array
of typed parts, or something else (treated as empty text). -/
inductive EventContent where
  | str (s : String)
  | parts (ps : List (String × String))
  | other
deriving DecidableEq, Repr

/-- One entry of an event's `messages` array. -/
structure EventMessage where
  role : String
  content : EventContent
deriving DecidableEq, Repr

/-- The part of an agent_end event the capture hook reads: the session
identity and the message list (an absent `messages` field behaves exactly
like an empty list). -/
structure HookEvent where
  sessionChannelId : Option String
  sessionId : Option String
  messages : List EventMessage
deriving DecidableEq, Repr

/-- JS `a || b` on a possibly-missing string: the fallback is used when the
value is absent or the empty string (both falsy). -/
def jsOrDefault (v : Option String) (d : String) : String :=
  match v with
  | some s => if s = "" then d else s
  | none => d

/-- Model of `getChannelKey` (src/index.ts:90-92). -/
def getChannelKey (ev : HookEvent) : String :=
  jsOrDefault ev.sessionChannelId (jsOrDefault ev.sessionId "default")

/-- Content flattening of the capture hook (src/index.ts:718-726): a string is
taken as is; an array keeps the parts of type "text" and joins their text
with a newline; anything else yields the empty string. -/
def flattenContent : EventContent → String
  | .str s => s
  | .parts ps =>
      String.intercalate "\n" ((ps.filter (fun p => p.1 == "text")).map Prod.snd)
  | .other => ""

/-- Qualifying-message extraction of the agent_end hook (src/index.ts:714-737):
keep messages whose role is user or assistant and whose flattened content is
longer than 5 characters, stamping each with the event timestamp. -/
def extractNewMessages (now : String) (msgs : List EventMessage) :
    List BufferedMessage :=
  msgs.filterMap (fun m =>
    if m.role == "user" || m.role == "assistant" then
      let content := flattenContent m.content
      if 5 < content.length then some ⟨m.role, content, now⟩ else none
    else none)

/-- A request to the extraction collaborator (`momoFetch` of
`/api/ext/extract`, src/index.ts:107-114), together with the outcome oracle:
`ok = false` models a transport/HTTP failure thrown by the call. -/
structure ExtractCall where
  messages : List BufferedMessage
  source : String
  channel : String
  ok : Bool
deriving DecidableEq, Repr

/-- One `setTimeout` handle stored in `silenceTimers`: its number and whether it
is still live (`clearTimeout` clears the flag without removing the map
entry). -/
structure TimerEntry where
  id : Nat
  live : Bool
deriving DecidableEq, Repr

/-- The module-level mutable state of the plugin: `messageBuffers` and
`silenceTimers` (src/index.ts:84-85), plus the log of extraction calls made
so far and a counter supplying fresh timer handles. -/
structure PluginState where
  messageBuffers : List (String × List BufferedMessage)
  silenceTimers : List (String × TimerEntry)
  calls : List ExtractCall
  nextTimer : Nat
deriving DecidableEq, Repr

-- ===========================================================================
-- JS Map operations as ordered association lists
-- ===========================================================================

/-- JS `Map.get`. -/
def mapLookup {α : Type} : List (String × α) → String → Option α
  | [], _ => none
  | (k2, v) :: rest, k => if k2 = k then some v else mapLookup rest k

/-- JS `Map.delete`. -/
def mapErase {α : Type} : List (String × α) → String → List (String × α)
  | [], _ => []
  | (k2, v) :: rest, k =>
      if k2 = k then mapErase rest k else (k2, v) :: mapErase rest k

/-- JS `Map.set`: replace the value in place when the key is present (keeping its
insertion position), otherwise append the new entry at the end. -/
def mapSet {α : Type} : List (String × α) → String → α → List (String × α)
  | [], k, v => [(k, v)]
  | (k2, v2) :: rest, k, v =>
      if k2 = k then (k, v) :: rest else (k2, v2) :: mapSet rest k v

/-- The keys of the map in insertion order (JS `Map` iteration order). -/
def mapKeys {α : Type} (m : List (String × α)) : List String := m.map Prod.fst

-- ===========================================================================
-- FlushCoordinator, Debouncer, capture hook, shutdown drain
-- ===========================================================================

/-- JS `Array.prototype.slice(-n)`: the last `n` elements (the whole list when
it is shorter than `n`). -/
def sliceLast {α : Type} (n : Nat) (l : List α) : List α := l.drop (l.length - n)

/-- Model of `flushBuffer` (src/index.ts:94-126).  A missing or too-small buffer is
discarded with no extraction call; otherwise one extraction call is made
(recorded with its outcome `ok`) and — on success and on failure alike, via
the try/catch — the buffer is deleted afterwards. -/
def flushBuffer (ok : Bool) (st : PluginState) (channelKey : String) :
    PluginState :=
  match mapLookup st.messageBuffers channelKey with
  | none => { st with messageBuffers := mapErase st.messageBuffers channelKey }
  | some messages =>
    if messages.length < 4 then
      { st with messageBuffers := mapErase st.messageBuffers channelKey }
    else
      let st1 := { st with
        calls := st.calls ++ [(⟨messages, "openclaw", channelKey, ok⟩ : ExtractCall)] }
      if ok then
        { st1 with messageBuffers := mapErase st1.messageBuffers channelKey }
      else
        { st1 with messageBuffers := mapErase st1.messageBuffers channelKey }

/-- Effect of `clearTimeout` on the timer stored for `k`: the map entry stays but its
timer is no longer live (the agent_end hook clears without deleting,
src/index.ts:748-750). -/
def clearTimer (ts : List (String × TimerEntry)) (k : String) :
    List (String × TimerEntry) :=
  ts.map (fun p => if p.1 = k then (p.1, ⟨p.2.id, false⟩) else p)

/-- The buffer contents for the event's channel after the hook's bulk append:
the previous buffer (empty when absent) followed by the event's qualifying
messages, in order. -/
def postBuffer (st : PluginState) (ev : HookEvent) (now : String) :
    List BufferedMessage :=
  (mapLookup st.messageBuffers (getChannelKey ev)).getD []
    ++ extractNewMessages now ev.messages

/-- The state at the moment the forced (overflow) flush is invoked
(src/index.ts:755-767): messages appended, the prior silence timer cleared,
the live buffer re-seeded with the last 4 messages, and the full pre-flush
buffer stored under the transient `__flush` key. -/
def overflowMid (now : String) (st : PluginState) (ev : HookEvent) :
    PluginState :=
  let channelKey := getChannelKey ev
  let newMessages := extractNewMessages now ev.messages
  let buffers := mapSet st.messageBuffers channelKey
    ((mapLookup st.messageBuffers channelKey).getD [] ++ newMessages)
  let timers := clearTimer st.silenceTimers channelKey
  let buffer := (mapLookup buffers channelKey).getD []
  let buffers2 := mapSet buffers channelKey (sliceLast 4 buffer)
  let buffers3 := mapSet buffers2 (channelKey ++ "__flush") buffer
  { st with messageBuffers := buffers3, silenceTimers := timers }

/-- The agent_end capture hook (src/index.ts:709-779).  Zero qualifying
messages: no effect.  Otherwise append, clear the prior timer, then either
force an immediate flush under the transient key (buffer at or above
`MAX_BUFFER_SIZE`, returning without arming a timer) or arm a fresh silence
timer. -/
def agentEnd (now : String) (ok : Bool) (st : PluginState) (ev : HookEvent) :
    PluginState :=
  let channelKey := getChannelKey ev
  let newMessages := extractNewMessages now ev.messages
  if newMessages.isEmpty then st
  else
    let buffers := mapSet st.messageBuffers channelKey
      ((mapLookup st.messageBuffers channelKey).getD [] ++ newMessages)
    let timers := clearTimer st.silenceTimers channelKey
    let buffer := (mapLookup buffers channelKey).getD []
    if MAX_BUFFER_SIZE ≤ buffer.length then
      flushBuffer ok (overflowMid now st ev) (channelKey ++ "__flush")
    else
      { st with
          messageBuffers := buffers,
          silenceTimers := mapSet timers channelKey ⟨st.nextTimer, true⟩,
          nextTimer := st.nextTimer + 1 }

/-- Firing of the silence timer `(key, id)` scheduled by the hook
(src/index.ts:772-778): only a still-live handle with that number can fire;
it first deletes its own map entry and then invokes `flushBuffer` on the
channel key. -/
def timerFire (ok : Bool) (st : PluginState) (key : String) (id : Nat) :
    PluginState :=
  match mapLookup st.silenceTimers key with
  | none => st
  | some t =>
    if t.live = true ∧ t.id = id then
      flushBuffer ok { st with silenceTimers := mapErase st.silenceTimers key }
        key
    else st

/-- One iteration of the service stop handler (src/index.ts:1067-1073):
cancel and delete the channel's silence timer, then flush its buffer. -/
def drainStep (ok : Bool) (st : PluginState) (key : String) : PluginState :=
  flushBuffer ok { st with silenceTimers := mapErase st.silenceTimers key } key

/-- Sequential drain over a list of channel keys, consuming one outcome
oracle per key. -/
def drainKeys : List String → List Bool → PluginState → PluginState
  | [], _, st => st
  | k :: ks, oks, st => drainKeys ks oks.tail (drainStep (oks.headD true) st k)

/-- The service stop handler (src/index.ts:1065-1075): iterate over the
buffered channels in insertion order, awaiting each flush before the next.
`flushBuffer` only ever deletes the key being flushed, so iterating the live
`Map` iterator coincides with iterating a snapshot of the keys. -/
def stopHandler (oks : List Bool) (st : PluginState) : PluginState :=
  drainKeys (mapKeys st.messageBuffers) oks st

/-- The extraction calls the shutdown drain makes, described per buffer entry:
channels below the 4-message floor contribute nothing, every other channel
contributes exactly one call with its full content, in insertion order. -/
def drainedCalls (bs : List (String × List BufferedMessage))
    (oks : List Bool) : List ExtractCall :=
  match bs with
  | [] => []
  | (k, msgs) :: rest =>
    if msgs.length < 4 then drainedCalls rest oks.tail
    else ⟨msgs, "openclaw", k, oks.headD true⟩ :: drainedCalls rest oks.tail

/-- Erase each key of the list from the timer map in turn. -/
def removeKeys (ts : List (String × TimerEntry)) :
    List String → List (String × TimerEntry)
  | [] => ts
  | k :: ks => removeKeys (mapErase ts k) ks

/-- Is there a live pending silence timer for `key`? -/
def hasLiveTimer (ts : List (String × TimerEntry)) (key : String) : Bool :=
  ts.any (fun p => decide (p.1 = key) && p.2.live)

/-- The live pending timers recorded for `key`. -/
def liveTimersFor (st : PluginState) (key : String) :
    List (String × TimerEntry) :=
  st.silenceTimers.filter (fun p => decide (p.1 = key) && p.2.live)

/-- The state at service start: both maps empty, nothing sent. -/
def initState : PluginState := ⟨[], [], [], 0⟩

/-- One observable transition of the plugin: an agent_end event, a silence
timer firing, or the service stop handler. -/
inductive PluginStep : PluginState → PluginState → Prop where
  | msg (now : String) (ok : Bool) (ev : HookEvent) (st : PluginState) :
      PluginStep st (agentEnd now ok st ev)
  | fire (ok : Bool) (key : String) (id : Nat) (st : PluginState) :
      PluginStep st (timerFire ok st key id)
  | stop (oks : List Bool) (st : PluginState) :
      PluginStep st (stopHandler oks st)

/-- States reachable from service start by any sequence of events. -/
inductive ReachableState : PluginState → Prop where
  | init : ReachableState initState
  | next {st st2 : PluginState} :
      ReachableState st → PluginStep st st2 → ReachableState st2

-- ===========================================================================
-- Concrete fixtures used by witnesses and counterexamples
-- ===========================================================================

/-- A qualifying user message (content longer than 5 characters). -/
def wMsg : EventMessage := ⟨"user", .str "hello there friend"⟩

/-- The buffered form of `wMsg` stamped at time "t0". -/
def wBm : BufferedMessage := ⟨"user", "hello there friend", "t0"⟩

/-- An event carrying a single qualifying message. -/
def ev1 : HookEvent := ⟨none, none, [wMsg]⟩

/-- An event carrying exactly 20 qualifying messages. -/
def ev20 : HookEvent := ⟨none, none, List.replicate 20 wMsg⟩

/-- An event carrying 21 qualifying messages. -/
def ev21 : HookEvent := ⟨none, none, List.replicate 21 wMsg⟩

/-- A state with one 4-message buffer and a live timer for its channel. -/
def stFour : PluginState :=
  ⟨[("alpha", List.replicate 4 wBm)], [("alpha", ⟨0, true⟩)], [], 1⟩

/-- A state with a 5-message channel and a 2-message channel, each with a
live pending timer. -/
def stDrain : PluginState :=
  ⟨[("alpha", List.replicate 5 wBm), ("beta", List.replicate 2 wBm)],
   [("alpha", ⟨0, true⟩), ("beta", ⟨1, true⟩)], [], 2⟩

-- ===========================================================================
-- Association-map lemmas
-- ===========================================================================

theorem mapLookup_mapSet_self {α : Type} (m : List (String × α)) (k : String)
    (v : α) : mapLookup (mapSet m k v) k = some v := by
  induction m with
  | nil => simp [mapSet, mapLookup]
  | cons p rest ih =>
    obtain ⟨k2, v2⟩ := p
    by_cases h : k2 = k
    · simp [mapSet, h, mapLookup]
    · simp [mapSet, h, mapLookup, ih]

theorem mapLookup_mapSet_ne {α : Type} (m : List (String × α)) {k k3 : String}
    (v : α) (h : k3 ≠ k) : mapLookup (mapSet m k v) k3 = mapLookup m k3 := by
  have h2 : ¬ k = k3 := fun he => h he.symm
  induction m with
  | nil => simp [mapSet, mapLookup, h2]
  | cons p rest ih =>
    obtain ⟨k2, v2⟩ := p
    by_cases h3 : k2 = k
    · subst h3
      simp [mapSet, mapLookup, h2]
    · simp [mapSet, h3, mapLookup, ih]

theorem mapLookup_mapErase_self {α : Type} (m : List (String × α))
    (k : String) : mapLookup (mapErase m k) k = none := by
  induction m with
  | nil => simp [mapErase, mapLookup]
  | cons p rest ih =>
    obtain ⟨k2, v2⟩ := p
    by_cases h : k2 = k
    · simp [mapErase, h, ih]
    · simp [mapErase, h, mapLookup, ih]

theorem mapLookup_mapErase_ne {α : Type} (m : List (String × α))
    {k k3 : String} (h : k3 ≠ k) :
    mapLookup (mapErase m k) k3 = mapLookup m k3 := by
  have h2 : ¬ k = k3 := fun he => h he.symm
  induction m with
  | nil => simp [mapErase]
  | cons p rest ih =>
    obtain ⟨k2, v2⟩ := p
    by_cases h3 : k2 = k
    · subst h3
      simp [mapErase, mapLookup, h2, ih]
    · simp [mapErase, h3, mapLookup, ih]

theorem mapErase_sublist {α : Type} (m : List (String × α)) (k : String) :
    List.Sublist (mapErase m k) m := by
  induction m with
  | nil => exact List.Sublist.refl _
  | cons p rest ih =>
    obtain ⟨k2, v2⟩ := p
    by_cases h : k2 = k
    · rw [mapErase, if_pos h]
      exact ih.cons _
    · rw [mapErase, if_neg h]
      exact ih.cons₂ _

theorem mapErase_of_not_mem {α : Type} {m : List (String × α)} {k : String}
    (h : k ∉ mapKeys m) : mapErase m k = m := by
  induction m with
  | nil => simp [mapErase]
  | cons p rest ih =>
    obtain ⟨k2, v2⟩ := p
    simp only [mapKeys, List.map_cons, List.mem_cons, not_or] at h
    have hne : ¬ k2 = k := fun h2 => h.1 h2.symm
    rw [mapErase, if_neg hne, ih h.2]

theorem mem_mapKeys_mapSet {α : Type} {m : List (String × α)}
    {k k2 : String} {v : α} (h : k2 ∈ mapKeys (mapSet m k v)) :
    k2 ∈ mapKeys m ∨ k2 = k := by
  induction m with
  | nil =>
    rw [mapSet, mapKeys, List.map_cons, List.map_nil, List.mem_singleton] at h
    exact Or.inr h
  | cons p rest ih =>
    obtain ⟨k3, v3⟩ := p
    by_cases h3 : k3 = k
    · rw [mapSet, if_pos h3, mapKeys, List.map_cons, List.mem_cons] at h
      rcases h with h | h
      · exact Or.inr h
      · exact Or.inl (by
          rw [mapKeys, List.map_cons]
          exact List.mem_cons_of_mem _ h)
    · rw [mapSet, if_neg h3, mapKeys, List.map_cons, List.mem_cons] at h
      rcases h with h | h
      · exact Or.inl (by
          rw [mapKeys, List.map_cons]
          rw [h]
          exact List.mem_cons_self _ _)
      · rcases ih h with h4 | h4
        · exact Or.inl (by
            rw [mapKeys, List.map_cons]
            exact List.mem_cons_of_mem _ h4)
        · exact Or.inr h4

theorem nodup_mapKeys_mapSet {α : Type} (m : List (String × α)) (k : String)
    (v : α) (h : (mapKeys m).Nodup) : (mapKeys (mapSet m k v)).Nodup := by
  induction m with
  | nil =>
    rw [mapSet, mapKeys, List.map_cons, List.map_nil]
    exact List.nodup_singleton _
  | cons p rest ih =>
    obtain ⟨k3, v3⟩ := p
    rw [mapKeys, List.map_cons, List.nodup_cons] at h
    by_cases h3 : k3 = k
    · rw [mapSet, if_pos h3, mapKeys, List.map_cons, List.nodup_cons]
      subst h3
      exact ⟨h.1, h.2⟩
    · rw [mapSet, if_neg h3, mapKeys, List.map_cons, List.nodup_cons]
      refine ⟨fun hmem => ?_, ih h.2⟩
      rcases mem_mapKeys_mapSet hmem with h4 | h4
      · exact h.1 h4
      · exact h3 h4

theorem nodup_mapKeys_mapErase {α : Type} (m : List (String × α)) (k : String)
    (h : (mapKeys m).Nodup) : (mapKeys (mapErase m k)).Nodup :=
  List.Nodup.sublist ((mapErase_sublist m k).map Prod.fst) h

theorem mapKeys_clearTimer (ts : List (String × TimerEntry)) (k : String) :
    mapKeys (clearTimer ts k) = mapKeys ts := by
  induction ts with
  | nil => simp [clearTimer, mapKeys]
  | cons p rest ih =>
    obtain ⟨k2, v2⟩ := p
    by_cases h : k2 = k <;>
      simpa [clearTimer, mapKeys, h] using ih

theorem clearTimer_live_false {ts : List (String × TimerEntry)} {k : String}
    {p : String × TimerEntry} (hp : p ∈ clearTimer ts k) (hk : p.1 = k) :
    p.2.live = false := by
  induction ts with
  | nil => simp [clearTimer] at hp
  | cons q rest ih =>
    obtain ⟨k2, v2⟩ := q
    by_cases h : k2 = k
    · simp only [clearTimer, List.map_cons, if_pos h] at hp
      rw [List.mem_cons] at hp
      rcases hp with hp | hp
      · rw [hp]
      · exact ih hp
    · simp only [clearTimer, List.map_cons, if_neg h] at hp
      rw [List.mem_cons] at hp
      rcases hp with hp | hp
      · subst hp; exact absurd hk h
      · exact ih hp

theorem hasLiveTimer_clearTimer (ts : List (String × TimerEntry))
    (k : String) : hasLiveTimer (clearTimer ts k) k = false := by
  rw [Bool.eq_false_iff]
  intro h
  rw [hasLiveTimer, List.any_eq_true] at h
  obtain ⟨p, hp, hpred⟩ := h
  rw [Bool.and_eq_true, decide_eq_true_iff] at hpred
  have := clearTimer_live_false hp hpred.1
  rw [this] at hpred
  exact Bool.false_ne_true hpred.2

theorem mem_mapSet_self {α : Type} (m : List (String × α)) (k : String)
    (v : α) : (k, v) ∈ mapSet m k v := by
  induction m with
  | nil => simp [mapSet]
  | cons p rest ih =>
    obtain ⟨k2, v2⟩ := p
    by_cases h : k2 = k <;> simp [mapSet, h, ih]

theorem hasLiveTimer_mapSet_live (ts : List (String × TimerEntry))
    (k : String) (n : Nat) :
    hasLiveTimer (mapSet ts k ⟨n, true⟩) k = true := by
  rw [hasLiveTimer, List.any_eq_true]
  exact ⟨(k, ⟨n, true⟩), mem_mapSet_self ts k ⟨n, true⟩, by simp⟩

-- ===========================================================================
-- Component lemmas for flushBuffer / agentEnd
-- ===========================================================================

theorem flushBuffer_messageBuffers (ok : Bool) (st : PluginState)
    (k : String) :
    (flushBuffer ok st k).messageBuffers = mapErase st.messageBuffers k := by
  unfold flushBuffer
  cases mapLookup st.messageBuffers k with
  | none => rfl
  | some msgs =>
    by_cases hl : msgs.length < 4
    · simp [hl]
    · simp only [if_neg hl]
      cases ok <;> rfl

theorem flushBuffer_silenceTimers (ok : Bool) (st : PluginState)
    (k : String) :
    (flushBuffer ok st k).silenceTimers = st.silenceTimers := by
  unfold flushBuffer
  cases mapLookup st.messageBuffers k with
  | none => rfl
  | some msgs =>
    by_cases hl : msgs.length < 4
    · simp [hl]
    · simp only [if_neg hl]
      cases ok <;> rfl

theorem flushBuffer_nextTimer (ok : Bool) (st : PluginState) (k : String) :
    (flushBuffer ok st k).nextTimer = st.nextTimer := by
  unfold flushBuffer
  cases mapLookup st.messageBuffers k with
  | none => rfl
  | some msgs =>
    by_cases hl : msgs.length < 4
    · simp [hl]
    · simp only [if_neg hl]
      cases ok <;> rfl

theorem flushBuffer_calls_small (ok : Bool) (st : PluginState) (k : String)
    (h : ((mapLookup st.messageBuffers k).getD []).length < 4) :
    (flushBuffer ok st k).calls = st.calls := by
  unfold flushBuffer
  cases hm : mapLookup st.messageBuffers k with
  | none => rfl
  | some msgs =>
    rw [hm, Option.getD_some] at h
    simp [h]

theorem flushBuffer_calls_large (ok : Bool) (st : PluginState) (k : String)
    (msgs : List BufferedMessage)
    (hm : mapLookup st.messageBuffers k = some msgs)
    (hl : 4 ≤ msgs.length) :
    (flushBuffer ok st k).calls
      = st.calls ++ [⟨msgs, "openclaw", k, ok⟩] := by
  unfold flushBuffer
  rw [hm]
  have h2 : ¬ msgs.length < 4 := not_lt.mpr hl
  simp only [if_neg h2]
  cases ok <;> rfl

theorem flushBuffer_mem_calls (ok : Bool) (st : PluginState) (k : String)
    (c : ExtractCall) (hc : c ∈ (flushBuffer ok st k).calls) :
    c ∈ st.calls ∨ (c.source = "openclaw" ∧ c.channel = k) := by
  revert hc
  unfold flushBuffer
  cases mapLookup st.messageBuffers k with
  | none => exact fun hc => Or.inl hc
  | some msgs =>
    by_cases hl : msgs.length < 4
    · simp only [if_pos hl]
      exact fun hc => Or.inl hc
    · simp only [if_neg hl]
      cases ok <;>
        · intro hc
          rcases List.mem_append.mp hc with h | h
          · exact Or.inl h
          · rw [List.mem_singleton] at h
            subst h
            exact Or.inr ⟨rfl, rfl⟩

theorem isEmpty_false_of_ne_nil {α : Type} {l : List α} (h : l ≠ []) :
    l.isEmpty = false := by
  cases l with
  | nil => exact absurd rfl h
  | cons a as => rfl

theorem lookup_after_append (st : PluginState) (ev : HookEvent)
    (now : String) :
    mapLookup (mapSet st.messageBuffers (getChannelKey ev)
        ((mapLookup st.messageBuffers (getChannelKey ev)).getD []
          ++ extractNewMessages now ev.messages)) (getChannelKey ev)
      = some (postBuffer st ev now) :=
  mapLookup_mapSet_self _ _ _

theorem agentEnd_of_overflow (now : String) (ok : Bool) (st : PluginState)
    (ev : HookEvent) (hne : extractNewMessages now ev.messages ≠ [])
    (hlen : MAX_BUFFER_SIZE ≤ (postBuffer st ev now).length) :
    agentEnd now ok st ev
      = flushBuffer ok (overflowMid now st ev)
          (getChannelKey ev ++ "__flush") := by
  unfold agentEnd overflowMid
  simp only [isEmpty_false_of_ne_nil hne, Bool.false_eq_true, if_false,
    lookup_after_append, Option.getD_some]
  rw [if_pos hlen]

theorem agentEnd_of_underflow (now : String) (ok : Bool) (st : PluginState)
    (ev : HookEvent) (hne : extractNewMessages now ev.messages ≠ [])
    (hlen : (postBuffer st ev now).length < MAX_BUFFER_SIZE) :
    agentEnd now ok st ev
      = { st with
          messageBuffers :=
            mapSet st.messageBuffers (getChannelKey ev) (postBuffer st ev now),
          silenceTimers :=
            mapSet (clearTimer st.silenceTimers (getChannelKey ev))
              (getChannelKey ev) ⟨st.nextTimer, true⟩,
          nextTimer := st.nextTimer + 1 } := by
  unfold agentEnd
  simp only [isEmpty_false_of_ne_nil hne, Bool.false_eq_true, if_false,
    lookup_after_append, Option.getD_some]
  rw [if_neg (not_le.mpr hlen)]
  rfl

theorem agentEnd_of_empty (now : String) (ok : Bool) (st : PluginState)
    (ev : HookEvent) (h : extractNewMessages now ev.messages = []) :
    agentEnd now ok st ev = st := by
  unfold agentEnd
  simp [h]

theorem overflowMid_calls (now : String) (st : PluginState) (ev : HookEvent) :
    (overflowMid now st ev).calls = st.calls := rfl

theorem overflowMid_nextTimer (now : String) (st : PluginState)
    (ev : HookEvent) : (overflowMid now st ev).nextTimer = st.nextTimer := rfl

theorem overflowMid_silenceTimers (now : String) (st : PluginState)
    (ev : HookEvent) :
    (overflowMid now st ev).silenceTimers
      = clearTimer st.silenceTimers (getChannelKey ev) := rfl

theorem overflowMid_messageBuffers (now : String) (st : PluginState)
    (ev : HookEvent) :
    (overflowMid now st ev).messageBuffers
      = mapSet (mapSet
          (mapSet st.messageBuffers (getChannelKey ev) (postBuffer st ev now))
          (getChannelKey ev) (sliceLast 4 (postBuffer st ev now)))
          (getChannelKey ev ++ "__flush") (postBuffer st ev now) := by
  unfold overflowMid
  simp only [lookup_after_append, Option.getD_some]
  rfl

theorem overflowMid_lookup_tempKey (now : String) (st : PluginState)
    (ev : HookEvent) :
    mapLookup (overflowMid now st ev).messageBuffers
        (getChannelKey ev ++ "__flush")
      = some (postBuffer st ev now) := by
  rw [overflowMid_messageBuffers]
  exact mapLookup_mapSet_self _ _ _

theorem key_ne_flushKey (k : String) : k ≠ k ++ "__flush" := by
  intro h
  have h2 := congrArg String.length h
  rw [String.length_append] at h2
  have h3 : ("__flush" : String).length = 7 := rfl
  rw [h3] at h2
  omega

theorem overflowMid_lookup_channel (now : String) (st : PluginState)
    (ev : HookEvent) :
    mapLookup (overflowMid now st ev).messageBuffers (getChannelKey ev)
      = some (sliceLast 4 (postBuffer st ev now)) := by
  rw [overflowMid_messageBuffers,
    mapLookup_mapSet_ne _ _ (key_ne_flushKey (getChannelKey ev)),
    mapLookup_mapSet_self]

theorem shouldConsult_eq_false_iff (t : String) :
    shouldConsultMemory t = false ↔
      (t = "" ∨ t.length < 30 ∨ looksLikeCasualChat t = true) := by
  unfold shouldConsultMemory
  by_cases h1 : t = "" ∨ t.length < 30
  · rw [if_pos h1]
    exact ⟨fun _ => Or.elim h1 Or.inl (fun h => Or.inr (Or.inl h)),
      fun _ => rfl⟩
  · rw [if_neg h1]
    push_neg at h1
    by_cases h2 : looksLikeCasualChat t
    · rw [if_pos h2]
      exact ⟨fun _ => Or.inr (Or.inr h2), fun _ => rfl⟩
    · rw [if_neg h2]
      constructor
      · intro h
        exact absurd h (by decide)
      · rintro (h | h | h)
        · exact absurd h h1.1
        · exact absurd h (not_lt.mpr h1.2)
        · exact absurd h h2

theorem looksLikeCasualChat_iff (t : String) :
    looksLikeCasualChat t = true ↔
      (matchesCasualPattern (jsNormalize t) = true ∨
        ((jsNormalize t).length < 40 ∧
          (jsNormalize t).contains '?' = false ∧
          hasMemoryKeywords (jsNormalize t) = false)) := by
  unfold looksLikeCasualChat
  simp [Bool.or_eq_true, Bool.and_eq_true, decide_eq_true_iff,
    Bool.not_eq_true']
  tauto

/-- C2 (amended): `shouldConsultMemory` classifies a candidate text as skip
exactly when the text is empty, OR shorter than 30 characters — this floor
applies unconditionally, before and independently of the casual-chat check,
even when the text contains a question mark or a memory keyword — OR
classified casual, where casual holds iff the lowercased trimmed text matches
a leading-token casual pattern (regardless of length), or its length is under
40 with no question mark and no memory keyword. -/
theorem recall_skip_characterization (t : String) :
    shouldConsultMemory t = false ↔
      (t = "" ∨ t.length < 30 ∨
        matchesCasualPattern (jsNormalize t) = true ∨
        ((jsNormalize t).length < 40 ∧
          (jsNormalize t).contains '?' = false ∧
          hasMemoryKeywords (jsNormalize t) = false)) := by
  rw [shouldConsult_eq_false_iff, looksLikeCasualChat_iff]

/-- C2 counterexample: "deadline?" is 9 characters long, contains a question
mark and the memory keyword "deadline", and matches no casual pattern — by
the claim it should be classified consider, but the hook classifies it as
skip because the 30-character floor applies before the casual check. -/
theorem recall_short_floor_counterexample :
    shouldConsultMemory "deadline?" = false ∧
    ("deadline?" : String) ≠ "" ∧
    looksLikeCasualChat "deadline?" = false ∧
    (jsNormalize "deadline?").contains '?' = true ∧
    hasMemoryKeywords (jsNormalize "deadline?") = true ∧
    ("deadline?" : String).length < 30 := by
  refine ⟨by decide, by decide, by decide, by decide, by decide, by decide⟩

/-- C5: for a channel whose buffer holds at least 4 messages, a flush makes
exactly one extraction-collaborator call — on success and on failure alike —
then removes the key from the buffer store; a repeated flush of the same key
makes no further call, so the same buffered content is never handed off
twice. -/
theorem flush_at_most_once (st : PluginState) (key : String)
    (msgs : List BufferedMessage)
    (hm : mapLookup st.messageBuffers key = some msgs)
    (hl : 4 ≤ msgs.length) (ok : Bool) :
    (flushBuffer ok st key).calls
        = st.calls ++ [⟨msgs, "openclaw", key, ok⟩] ∧
    mapLookup (flushBuffer ok st key).messageBuffers key = none ∧
    ∀ ok2 : Bool,
      (flushBuffer ok2 (flushBuffer ok st key) key).calls
        = (flushBuffer ok st key).calls := by
  refine ⟨flushBuffer_calls_large ok st key msgs hm hl, ?_, ?_⟩
  · rw [flushBuffer_messageBuffers, mapLookup_mapErase_self]
  · intro ok2
    apply flushBuffer_calls_small
    rw [flushBuffer_messageBuffers, mapLookup_mapErase_self]
    simp

theorem flush_at_most_once_witness :
    (flushBuffer true stFour "alpha").calls
        = stFour.calls ++ [⟨List.replicate 4 wBm, "openclaw", "alpha", true⟩] ∧
    mapLookup (flushBuffer true stFour "alpha").messageBuffers "alpha"
        = none ∧
    (flushBuffer false (flushBuffer true stFour "alpha") "alpha").calls
        = (flushBuffer true stFour "alpha").calls := by
  have h := flush_at_most_once stFour "alpha" (List.replicate 4 wBm)
    (by decide) (by decide) true
  exact ⟨h.1, h.2.1, h.2.2 false⟩

/-- C6: for a channel whose buffer holds fewer than 4 messages (a missing
buffer counts as 0), a flush removes the key from the buffer store and makes
no extraction-collaborator call. -/
theorem flush_small_buffer_no_call (st : PluginState) (key : String)
    (ok : Bool)
    (h : ((mapLookup st.messageBuffers key).getD []).length < 4) :
    (flushBuffer ok st key).calls = st.calls ∧
    mapLookup (flushBuffer ok st key).messageBuffers key = none :=
  ⟨flushBuffer_calls_small ok st key h,
   by rw [flushBuffer_messageBuffers, mapLookup_mapErase_self]⟩

theorem flush_small_buffer_no_call_witness :
    (flushBuffer true stDrain "beta").calls = stDrain.calls ∧
    mapLookup (flushBuffer true stDrain "beta").messageBuffers "beta"
      = none :=
  flush_small_buffer_no_call stDrain "beta" true (by decide)

/-- C1 (amended): when an event's append brings a channel's buffer to
MAX_BUFFER_SIZE (20) messages, the flush coordinator is invoked immediately
within the same hook invocation — no silence timer is armed, so there is no
silence wait — and the batch handed to the extraction collaborator is the
ENTIRE 20-message pre-flush buffer, including the 4 messages that are also
retained as overlap (not the first 16 messages only). -/
theorem overflow_flush_batch_full_buffer (st : PluginState) (ev : HookEvent)
    (now : String) (ok : Bool)
    (hne : extractNewMessages now ev.messages ≠ [])
    (hlen : (postBuffer st ev now).length = MAX_BUFFER_SIZE) :
    (agentEnd now ok st ev).calls
      = st.calls ++ [⟨postBuffer st ev now, "openclaw",
          getChannelKey ev ++ "__flush", ok⟩] ∧
    hasLiveTimer (agentEnd now ok st ev).silenceTimers (getChannelKey ev)
      = false := by
  have hge : MAX_BUFFER_SIZE ≤ (postBuffer st ev now).length :=
    le_of_eq hlen.symm
  rw [agentEnd_of_overflow now ok st ev hne hge]
  constructor
  · rw [flushBuffer_calls_large ok (overflowMid now st ev) _
      (postBuffer st ev now) (overflowMid_lookup_tempKey now st ev)
      (by rw [hlen]; decide)]
    rw [overflowMid_calls]
  · rw [flushBuffer_silenceTimers, overflowMid_silenceTimers]
    exact hasLiveTimer_clearTimer _ _

theorem overflow_flush_batch_full_buffer_witness :
    (agentEnd "t0" true initState ev20).calls
      = initState.calls ++ [⟨postBuffer initState ev20 "t0", "openclaw",
          getChannelKey ev20 ++ "__flush", true⟩] ∧
    hasLiveTimer (agentEnd "t0" true initState ev20).silenceTimers
      (getChannelKey ev20) = false :=
  overflow_flush_batch_full_buffer initState ev20 "t0" true (by decide)
    (by decide)

/-- C1 counterexample: appending 20 qualifying messages to a fresh channel
triggers the immediate flush, but the batch handed to the collaborator holds
all 20 messages — it is not the 16-message prefix excluding the retained
overlap, as the claim states. -/
theorem overflow_flush_first16_counterexample :
    (agentEnd "t0" true initState ev20).calls.map
        (fun c => c.messages.length) = [20] ∧
    (agentEnd "t0" true initState ev20).calls.map (fun c => c.messages)
      ≠ [(postBuffer initState ev20 "t0").take 16] := by
  exact ⟨by decide, by decide⟩

/-- C10: the overflow check runs only after the event's whole qualifying batch
has been appended, so a single event carrying more than MAX_BUFFER_SIZE
qualifying messages drives the buffer past the bound before any flush, and
the forced flush hands over that entire oversized buffer — all of the event's
messages included.  MAX_BUFFER_SIZE therefore caps neither the buffer length
reached inside an event nor the size of a flushed batch. -/
theorem bulk_append_unbounded_batch (st : PluginState) (ev : HookEvent)
    (now : String) (ok : Bool)
    (hn : MAX_BUFFER_SIZE < (extractNewMessages now ev.messages).length) :
    MAX_BUFFER_SIZE < (postBuffer st ev now).length ∧
    (agentEnd now ok st ev).calls
      = st.calls ++ [⟨postBuffer st ev now, "openclaw",
          getChannelKey ev ++ "__flush", ok⟩] ∧
    ∃ pre, postBuffer st ev now = pre ++ extractNewMessages now ev.messages
      := by
  have hne : extractNewMessages now ev.messages ≠ [] := by
    intro h
    rw [h] at hn
    exact absurd hn (by decide)
  have hpost : MAX_BUFFER_SIZE < (postBuffer st ev now).length := by
    rw [postBuffer, List.length_append]
    omega
  refine ⟨hpost, ?_,
    ⟨(mapLookup st.messageBuffers (getChannelKey ev)).getD [], rfl⟩⟩
  rw [agentEnd_of_overflow now ok st ev hne (le_of_lt hpost)]
  rw [flushBuffer_calls_large ok (overflowMid now st ev) _
    (postBuffer st ev now) (overflowMid_lookup_tempKey now st ev)
    (le_trans (by decide) (le_of_lt hpost))]
  rw [overflowMid_calls]

theorem bulk_append_unbounded_batch_witness :
    MAX_BUFFER_SIZE < (postBuffer initState ev21 "t0").length ∧
    (agentEnd "t0" true initState ev21).calls
      = initState.calls ++ [⟨postBuffer initState ev21 "t0", "openclaw",
          getChannelKey ev21 ++ "__flush", true⟩] ∧
    ∃ pre, postBuffer initState ev21 "t0"
        = pre ++ extractNewMessages "t0" ev21.messages :=
  bulk_append_unbounded_batch initState ev21 "t0" true (by decide)

/-- C7: immediately after an overflow-triggered flush, the channel's live
buffer holds exactly the last 4 messages of the pre-flush buffer, in their
original order (the pre-flush buffer splits as prefix ++ those 4), and the
flush itself runs against the state in which the live buffer already holds
those 4 messages — so the live buffer is never empty during the remote
extraction call, which operates on the separate transient key. -/
theorem overflow_reseed_last4 (st : PluginState) (ev : HookEvent)
    (now : String) (ok : Bool)
    (hne : extractNewMessages now ev.messages ≠ [])
    (hlen : MAX_BUFFER_SIZE ≤ (postBuffer st ev now).length) :
    mapLookup (agentEnd now ok st ev).messageBuffers (getChannelKey ev)
      = some (sliceLast 4 (postBuffer st ev now)) ∧
    (sliceLast 4 (postBuffer st ev now)).length = 4 ∧
    postBuffer st ev now
      = (postBuffer st ev now).take ((postBuffer st ev now).length - 4)
          ++ sliceLast 4 (postBuffer st ev now) ∧
    agentEnd now ok st ev
      = flushBuffer ok (overflowMid now st ev)
          (getChannelKey ev ++ "__flush") ∧
    mapLookup (overflowMid now st ev).messageBuffers (getChannelKey ev)
      = some (sliceLast 4 (postBuffer st ev now)) := by
  have h4 : 4 ≤ (postBuffer st ev now).length := le_trans (by decide) hlen
  refine ⟨?_, ?_, ?_, agentEnd_of_overflow now ok st ev hne hlen,
    overflowMid_lookup_channel now st ev⟩
  · rw [agentEnd_of_overflow now ok st ev hne hlen,
      flushBuffer_messageBuffers,
      mapLookup_mapErase_ne _ (key_ne_flushKey (getChannelKey ev)),
      overflowMid_lookup_channel]
  · rw [sliceLast, List.length_drop]
    omega
  · rw [sliceLast]
    exact (List.take_append_drop _ _).symm

theorem overflow_reseed_last4_witness :
    mapLookup (agentEnd "t0" true initState ev20).messageBuffers
        (getChannelKey ev20)
      = some (sliceLast 4 (postBuffer initState ev20 "t0")) ∧
    (sliceLast 4 (postBuffer initState ev20 "t0")).length = 4 ∧
    postBuffer initState ev20 "t0"
      = (postBuffer initState ev20 "t0").take
            ((postBuffer initState ev20 "t0").length - 4)
          ++ sliceLast 4 (postBuffer initState ev20 "t0") ∧
    agentEnd "t0" true initState ev20
      = flushBuffer true (overflowMid "t0" initState ev20)
          (getChannelKey ev20 ++ "__flush") ∧
    mapLookup (overflowMid "t0" initState ev20).messageBuffers
        (getChannelKey ev20)
      = some (sliceLast 4 (postBuffer initState ev20 "t0")) :=
  overflow_reseed_last4 initState ev20 "t0" true (by decide) (by decide)

/-- C4 (amended): an event that appends at least one qualifying message
always cancels the channel's prior silence timer, but a fresh timer is armed
only when the resulting buffer stays below MAX_BUFFER_SIZE; in the overflow
case the hook returns right after the forced flush and the channel is left
with NO live pending timer. -/
theorem append_timer_rearm_except_overflow (st : PluginState)
    (ev : HookEvent) (now : String) (ok : Bool)
    (hne : extractNewMessages now ev.messages ≠ []) :
    hasLiveTimer (agentEnd now ok st ev).silenceTimers (getChannelKey ev)
      = decide ((postBuffer st ev now).length < MAX_BUFFER_SIZE) ∧
    ((postBuffer st ev now).length < MAX_BUFFER_SIZE →
      mapLookup (agentEnd now ok st ev).silenceTimers (getChannelKey ev)
        = some ⟨st.nextTimer, true⟩) := by
  by_cases hlen : (postBuffer st ev now).length < MAX_BUFFER_SIZE
  · rw [agentEnd_of_underflow now ok st ev hne hlen]
    refine ⟨?_, fun _ => ?_⟩
    · rw [hasLiveTimer_mapSet_live]
      exact (decide_eq_true hlen).symm
    · exact mapLookup_mapSet_self _ _ _
  · rw [agentEnd_of_overflow now ok st ev hne (not_lt.mp hlen)]
    refine ⟨?_, fun h => absurd h hlen⟩
    rw [flushBuffer_silenceTimers, overflowMid_silenceTimers,
      hasLiveTimer_clearTimer]
    exact (decide_eq_false hlen).symm

theorem append_timer_rearm_except_overflow_witness :
    hasLiveTimer (agentEnd "t0" true initState ev1).silenceTimers
        (getChannelKey ev1)
      = decide ((postBuffer initState ev1 "t0").length < MAX_BUFFER_SIZE) ∧
    mapLookup (agentEnd "t0" true initState ev1).silenceTimers
        (getChannelKey ev1) = some ⟨initState.nextTimer, true⟩ := by
  have h := append_timer_rearm_except_overflow initState ev1 "t0" true
    (by decide)
  exact ⟨h.1, h.2 (by decide)⟩

/-- C4 counterexample: an event of 20 qualifying messages appends them all,
yet afterwards the channel has no live pending silence timer — the overflow
branch returns without re-arming, so "arrival of new content always resets
the silence clock" fails in exactly this case. -/
theorem overflow_no_timer_counterexample :
    extractNewMessages "t0" ev20.messages ≠ [] ∧
    hasLiveTimer (agentEnd "t0" true initState ev20).silenceTimers
      (getChannelKey ev20) = false := by
  exact ⟨by decide, by decide⟩

theorem agentEnd_mem_calls (now : String) (ok : Bool) (st : PluginState)
    (ev : HookEvent) (c : ExtractCall)
    (hc : c ∈ (agentEnd now ok st ev).calls) :
    c ∈ st.calls ∨ (c.source = "openclaw" ∧
      c.channel = getChannelKey ev ++ "__flush") := by
  by_cases h0 : extractNewMessages now ev.messages = []
  · rw [agentEnd_of_empty now ok st ev h0] at hc
    exact Or.inl hc
  · by_cases hlen : MAX_BUFFER_SIZE ≤ (postBuffer st ev now).length
    · rw [agentEnd_of_overflow now ok st ev h0 hlen] at hc
      rcases flushBuffer_mem_calls _ _ _ _ hc with h | h
      · exact Or.inl (by rwa [overflowMid_calls] at h)
      · exact Or.inr h
    · rw [agentEnd_of_underflow now ok st ev h0 (not_le.mp hlen)] at hc
      exact Or.inl hc

theorem timerFire_mem_calls (ok : Bool) (st : PluginState) (key : String)
    (id : Nat) (c : ExtractCall) (hc : c ∈ (timerFire ok st key id).calls) :
    c ∈ st.calls ∨ (c.source = "openclaw" ∧ c.channel = key) := by
  revert hc
  unfold timerFire
  cases mapLookup st.silenceTimers key with
  | none => exact fun hc => Or.inl hc
  | some t =>
    dsimp only
    by_cases hg : t.live = true ∧ t.id = id
    · rw [if_pos hg]
      intro hc
      rcases flushBuffer_mem_calls ok
          { st with silenceTimers := mapErase st.silenceTimers key } key c hc
        with h | h
      · exact Or.inl h
      · exact Or.inr h
    · rw [if_neg hg]
      exact fun hc => Or.inl hc

theorem drainStep_mem_calls (ok : Bool) (st : PluginState) (key : String)
    (c : ExtractCall) (hc : c ∈ (drainStep ok st key).calls) :
    c ∈ st.calls ∨ (c.source = "openclaw" ∧ c.channel = key) := by
  rw [drainStep] at hc
  rcases flushBuffer_mem_calls ok
      { st with silenceTimers := mapErase st.silenceTimers key } key c hc
    with h | h
  · exact Or.inl h
  · exact Or.inr h

theorem drainKeys_mem_calls (ks : List String) (oks : List Bool)
    (st : PluginState) (c : ExtractCall)
    (hc : c ∈ (drainKeys ks oks st).calls) :
    c ∈ st.calls ∨ c.source = "openclaw" := by
  induction ks generalizing oks st with
  | nil => exact Or.inl hc
  | cons k rest ih =>
    rw [drainKeys] at hc
    rcases ih _ _ hc with h | h
    · rcases drainStep_mem_calls _ _ _ _ h with h2 | h2
      · exact Or.inl h2
      · exact Or.inr h2.1
    · exact Or.inr h

theorem pluginStep_sources {st st2 : PluginState} (hstep : PluginStep st st2)
    (h : ∀ c ∈ st.calls, c.source = "openclaw") :
    ∀ c ∈ st2.calls, c.source = "openclaw" := by
  cases hstep with
  | msg now ok ev st =>
    intro c hc
    rcases agentEnd_mem_calls now ok st ev c hc with h2 | h2
    · exact h c h2
    · exact h2.1
  | fire ok key id st =>
    intro c hc
    rcases timerFire_mem_calls ok st key id c hc with h2 | h2
    · exact h c h2
    · exact h2.1
  | stop oks st =>
    intro c hc
    rcases drainKeys_mem_calls _ oks st c hc with h2 | h2
    · exact h c h2
    · exact h2

theorem reachable_sources {st : PluginState} (h : ReachableState st) :
    ∀ c ∈ st.calls, c.source = "openclaw" := by
  induction h with
  | init => intro c hc; exact absurd hc (List.not_mem_nil c)
  | next hr hstep ih => exact pluginStep_sources hstep ih

/-- C3 (amended): every extraction batch carries the fixed source tag
"openclaw"; a silence-timer flush and a shutdown-drain flush carry the
channel's own key in the `channel` field, but an overflow flush carries the
transient key (ChannelKey ++ "__flush") instead of the channel's identity,
because `flushBuffer` is invoked with the temporary key during overflow. -/
theorem extract_call_channel_source :
    (∀ st : PluginState, ReachableState st →
      ∀ c ∈ st.calls, c.source = "openclaw") ∧
    (∀ (ok : Bool) (st : PluginState) (key : String) (id : Nat),
      ∀ c ∈ (timerFire ok st key id).calls,
        c ∈ st.calls ∨ c.channel = key) ∧
    (∀ (ok : Bool) (st : PluginState) (key : String),
      ∀ c ∈ (drainStep ok st key).calls,
        c ∈ st.calls ∨ c.channel = key) ∧
    (∀ (now : String) (ok : Bool) (st : PluginState) (ev : HookEvent),
      ∀ c ∈ (agentEnd now ok st ev).calls,
        c ∈ st.calls ∨ c.channel = getChannelKey ev ++ "__flush") := by
  refine ⟨fun st h => reachable_sources h, ?_, ?_, ?_⟩
  · intro ok st key id c hc
    rcases timerFire_mem_calls ok st key id c hc with h | h
    · exact Or.inl h
    · exact Or.inr h.2
  · intro ok st key c hc
    rcases drainStep_mem_calls ok st key c hc with h | h
    · exact Or.inl h
    · exact Or.inr h.2
  · intro now ok st ev c hc
    rcases agentEnd_mem_calls now ok st ev c hc with h | h
    · exact Or.inl h
    · exact Or.inr h.2

theorem extract_call_channel_source_witness :
    (⟨List.replicate 20 wBm, "openclaw", "default__flush", true⟩ :
      ExtractCall).source = "openclaw" := by
  have h := extract_call_channel_source.1 (agentEnd "t0" true initState ev20)
    (ReachableState.next ReachableState.init
      (PluginStep.msg "t0" true ev20 initState))
  exact h _ (by decide)

/-- C3 counterexample: the overflow flush of a fresh "default" channel files
its batch under channel "default__flush", not under the channel's identity
"default" — the claim fails for the overflow trigger. -/
theorem overflow_channel_tempkey_counterexample :
    (agentEnd "t0" true initState ev20).calls.map ExtractCall.channel
      = ["default__flush"] ∧
    getChannelKey ev20 = "default" ∧
    ("default__flush" : String) ≠ "default" := by
  exact ⟨by decide, by decide, by decide⟩

theorem timerFire_of_lookup_none (ok : Bool) (st : PluginState)
    (key : String) (id : Nat)
    (h : mapLookup st.silenceTimers key = none) :
    timerFire ok st key id = st := by
  unfold timerFire
  rw [h]

theorem timerFire_of_no_fire (ok : Bool) (st : PluginState) (key : String)
    (id : Nat) (t : TimerEntry)
    (hm : mapLookup st.silenceTimers key = some t)
    (hg : ¬ (t.live = true ∧ t.id = id)) :
    timerFire ok st key id = st := by
  unfold timerFire
  rw [hm]
  exact if_neg hg

theorem timerFire_fires (ok : Bool) (st : PluginState) (key : String)
    (id : Nat) (t : TimerEntry)
    (hm : mapLookup st.silenceTimers key = some t)
    (hl : t.live = true) (hi : t.id = id) :
    timerFire ok st key id
      = flushBuffer ok
          { st with silenceTimers := mapErase st.silenceTimers key } key := by
  unfold timerFire
  rw [hm]
  exact if_pos ⟨hl, hi⟩

theorem agentEnd_timers_nodup (now : String) (ok : Bool) (st : PluginState)
    (ev : HookEvent) (h : (mapKeys st.silenceTimers).Nodup) :
    (mapKeys (agentEnd now ok st ev).silenceTimers).Nodup := by
  by_cases h0 : extractNewMessages now ev.messages = []
  · rwa [agentEnd_of_empty now ok st ev h0]
  · by_cases hlen : MAX_BUFFER_SIZE ≤ (postBuffer st ev now).length
    · rw [agentEnd_of_overflow now ok st ev h0 hlen,
        flushBuffer_silenceTimers, overflowMid_silenceTimers,
        mapKeys_clearTimer]
      exact h
    · rw [agentEnd_of_underflow now ok st ev h0 (not_le.mp hlen)]
      apply nodup_mapKeys_mapSet
      rw [mapKeys_clearTimer]
      exact h

theorem timerFire_timers_cases (ok : Bool) (st : PluginState) (key : String)
    (id : Nat) :
    (timerFire ok st key id).silenceTimers = st.silenceTimers ∨
    (timerFire ok st key id).silenceTimers
      = mapErase st.silenceTimers key := by
  cases hm : mapLookup st.silenceTimers key with
  | none => rw [timerFire_of_lookup_none ok st key id hm]; exact Or.inl rfl
  | some t =>
    by_cases hg : t.live = true ∧ t.id = id
    · rw [timerFire_fires ok st key id t hm hg.1 hg.2,
        flushBuffer_silenceTimers]
      exact Or.inr rfl
    · rw [timerFire_of_no_fire ok st key id t hm hg]
      exact Or.inl rfl

theorem drainKeys_timers_nodup (ks : List String) (oks : List Bool)
    (st : PluginState) (h : (mapKeys st.silenceTimers).Nodup) :
    (mapKeys (drainKeys ks oks st).silenceTimers).Nodup := by
  induction ks generalizing oks st with
  | nil => exact h
  | cons k rest ih =>
    rw [drainKeys]
    apply ih
    have h2 : (drainStep (oks.headD true) st k).silenceTimers
        = mapErase st.silenceTimers k := by
      rw [drainStep, flushBuffer_silenceTimers]
    rw [h2]
    exact nodup_mapKeys_mapErase _ _ h

theorem pluginStep_timers_nodup {st st2 : PluginState}
    (hstep : PluginStep st st2) (h : (mapKeys st.silenceTimers).Nodup) :
    (mapKeys st2.silenceTimers).Nodup := by
  cases hstep with
  | msg now ok ev st => exact agentEnd_timers_nodup now ok st ev h
  | fire ok key id st =>
    rcases timerFire_timers_cases ok st key id with h2 | h2
    · rw [h2]; exact h
    · rw [h2]; exact nodup_mapKeys_mapErase _ _ h
  | stop oks st => exact drainKeys_timers_nodup _ oks st h

theorem reachable_timers_nodup {st : PluginState} (h : ReachableState st) :
    (mapKeys st.silenceTimers).Nodup := by
  induction h with
  | init => exact List.nodup_nil
  | next hr hstep ih => exact pluginStep_timers_nodup hstep ih

theorem filter_key_length_le_one {α : Type} (m : List (String × α))
    (key : String) (h : (mapKeys m).Nodup) (p : String × α → Bool)
    (hp : ∀ x, p x = true → x.1 = key) : (m.filter p).length ≤ 1 := by
  induction m with
  | nil => simp
  | cons q rest ih =>
    rw [mapKeys, List.map_cons, List.nodup_cons] at h
    cases hq : p q with
    | false =>
      rw [List.filter_cons_of_neg (by simp [hq])]
      exact ih h.2
    | true =>
      rw [List.filter_cons_of_pos hq]
      have hrest : rest.filter p = [] := by
        rw [List.filter_eq_nil_iff]
        intro x hx hpx
        have h1 : x.1 = key := hp x hpx
        have h2 : q.1 = key := hp q hq
        apply h.1
        rw [h2, ← h1]
        exact List.mem_map_of_mem Prod.fst hx
      rw [hrest]
      simp

/-- C8: (a) in every reachable state each channel key has at most one live
pending silence timer; (b) firing the same timer handle twice is a no-op the
second time — a fired timer cannot double-fire, even across re-arms of other
keys; (c) a timer that fires removes its own handle from the timer table
before invoking the flush callback. -/
theorem timer_invariants :
    (∀ st : PluginState, ReachableState st → ∀ key : String,
      (liveTimersFor st key).length ≤ 1) ∧
    (∀ (ok ok2 : Bool) (st : PluginState) (key : String) (id : Nat),
      timerFire ok2 (timerFire ok st key id) key id
        = timerFire ok st key id) ∧
    (∀ (ok : Bool) (st : PluginState) (key : String) (id : Nat)
        (t : TimerEntry),
      mapLookup st.silenceTimers key = some t → t.live = true → t.id = id →
      timerFire ok st key id
        = flushBuffer ok
            { st with silenceTimers := mapErase st.silenceTimers key } key)
      := by
  refine ⟨?_, ?_, fun ok st key id t hm hl hi =>
    timerFire_fires ok st key id t hm hl hi⟩
  · intro st h key
    apply filter_key_length_le_one st.silenceTimers key
      (reachable_timers_nodup h)
    intro x hx
    rw [Bool.and_eq_true, decide_eq_true_iff] at hx
    exact hx.1
  · intro ok ok2 st key id
    cases hm : mapLookup st.silenceTimers key with
    | none =>
      rw [timerFire_of_lookup_none ok st key id hm,
        timerFire_of_lookup_none ok2 st key id hm]
    | some t =>
      by_cases hg : t.live = true ∧ t.id = id
      · rw [timerFire_fires ok st key id t hm hg.1 hg.2]
        apply timerFire_of_lookup_none
        rw [flushBuffer_silenceTimers]
        exact mapLookup_mapErase_self _ _
      · rw [timerFire_of_no_fire ok st key id t hm hg,
          timerFire_of_no_fire ok2 st key id t hm hg]

theorem timer_invariants_witness :
    (liveTimersFor initState "default").length ≤ 1 ∧
    timerFire false (timerFire true stFour "alpha" 0) "alpha" 0
      = timerFire true stFour "alpha" 0 ∧
    timerFire true stFour "alpha" 0
      = flushBuffer true
          { stFour with
            silenceTimers := mapErase stFour.silenceTimers "alpha" }
          "alpha" := by
  have h := timer_invariants
  exact ⟨h.1 initState ReachableState.init "default",
    h.2.1 true false stFour "alpha" 0,
    h.2.2 true stFour "alpha" 0 ⟨0, true⟩ (by decide) (by decide) (by decide)⟩

theorem drainedCalls_min_length (bs : List (String × List BufferedMessage))
    (oks : List Bool) :
    ∀ c ∈ drainedCalls bs oks, 4 ≤ c.messages.length := by
  induction bs generalizing oks with
  | nil => intro c hc; exact absurd hc (List.not_mem_nil c)
  | cons p rest ih =>
    obtain ⟨k, msgs⟩ := p
    intro c hc
    rw [drainedCalls] at hc
    by_cases hl : msgs.length < 4
    · rw [if_pos hl] at hc
      exact ih _ c hc
    · rw [if_neg hl] at hc
      rw [List.mem_cons] at hc
      rcases hc with hc | hc
      · rw [hc]
        exact not_lt.mp hl
      · exact ih _ c hc

theorem mapLookup_mapErase_none {α : Type} (m : List (String × α))
    (k k2 : String) (h : mapLookup m k = none) :
    mapLookup (mapErase m k2) k = none := by
  by_cases he : k = k2
  · rw [he]
    exact mapLookup_mapErase_self m k2
  · rw [mapLookup_mapErase_ne m he]
    exact h

theorem removeKeys_preserves_none (ts : List (String × TimerEntry))
    (ks : List String) (k : String) (h : mapLookup ts k = none) :
    mapLookup (removeKeys ts ks) k = none := by
  induction ks generalizing ts with
  | nil => exact h
  | cons k2 rest ih =>
    rw [removeKeys]
    exact ih _ (mapLookup_mapErase_none ts k k2 h)

theorem lookup_removeKeys_none (ts : List (String × TimerEntry))
    (ks : List String) (k : String) (h : k ∈ ks) :
    mapLookup (removeKeys ts ks) k = none := by
  induction ks generalizing ts with
  | nil => exact absurd h (List.not_mem_nil k)
  | cons k2 rest ih =>
    rw [removeKeys]
    by_cases he : k ∈ rest
    · exact ih _ he
    · have hk : k = k2 := by
        rw [List.mem_cons] at h
        tauto
      rw [hk]
      exact removeKeys_preserves_none _ rest k2
        (mapLookup_mapErase_self ts k2)

theorem pluginState_ext {a b : PluginState}
    (h1 : a.messageBuffers = b.messageBuffers)
    (h2 : a.silenceTimers = b.silenceTimers)
    (h3 : a.calls = b.calls) (h4 : a.nextTimer = b.nextTimer) : a = b := by
  cases a
  cases b
  simp only [PluginState.mk.injEq]
  exact ⟨h1, h2, h3, h4⟩

theorem drainKeys_spec (bs : List (String × List BufferedMessage))
    (oks : List Bool) (ts : List (String × TimerEntry))
    (cs : List ExtractCall) (n : Nat) (hnd : (mapKeys bs).Nodup) :
    drainKeys (mapKeys bs) oks ⟨bs, ts, cs, n⟩
      = ⟨[], removeKeys ts (mapKeys bs), cs ++ drainedCalls bs oks, n⟩ := by
  induction bs generalizing oks ts cs with
  | nil => simp [mapKeys, drainKeys, removeKeys, drainedCalls]
  | cons p rest ih =>
    obtain ⟨k, msgs⟩ := p
    rw [mapKeys, List.map_cons, List.nodup_cons] at hnd
    have hk : k ∉ mapKeys rest := hnd.1
    have hrest : (mapKeys rest).Nodup := hnd.2
    have hlk : mapLookup (((k, msgs) :: rest) :
        List (String × List BufferedMessage)) k = some msgs := by
      rw [mapLookup, if_pos rfl]
    have herase : mapErase (((k, msgs) :: rest) :
        List (String × List BufferedMessage)) k = rest := by
      rw [mapErase, if_pos rfl]
      exact mapErase_of_not_mem hk
    have hbuf : (drainStep (oks.headD true)
          ⟨(k, msgs) :: rest, ts, cs, n⟩ k).messageBuffers = rest := by
      rw [drainStep, flushBuffer_messageBuffers]
      exact herase
    have htim : (drainStep (oks.headD true)
          ⟨(k, msgs) :: rest, ts, cs, n⟩ k).silenceTimers
        = mapErase ts k := by
      rw [drainStep, flushBuffer_silenceTimers]
    have hnt : (drainStep (oks.headD true)
          ⟨(k, msgs) :: rest, ts, cs, n⟩ k).nextTimer = n := by
      rw [drainStep, flushBuffer_nextTimer]
    have hmain : drainKeys (mapKeys ((k, msgs) :: rest)) oks
          ⟨(k, msgs) :: rest, ts, cs, n⟩
        = drainKeys (mapKeys rest) oks.tail
            (drainStep (oks.headD true) ⟨(k, msgs) :: rest, ts, cs, n⟩ k) :=
      rfl
    by_cases hl : msgs.length < 4
    · have hc : (drainStep (oks.headD true)
            ⟨(k, msgs) :: rest, ts, cs, n⟩ k).calls = cs := by
        rw [drainStep]
        apply flushBuffer_calls_small
        show ((mapLookup (((k, msgs) :: rest) :
            List (String × List BufferedMessage)) k).getD []).length < 4
        rw [hlk, Option.getD_some]
        exact hl
      have hstep : drainStep (oks.headD true)
            ⟨(k, msgs) :: rest, ts, cs, n⟩ k
          = (⟨rest, mapErase ts k, cs, n⟩ : PluginState) :=
        pluginState_ext hbuf htim hc hnt
      rw [hmain, hstep, ih oks.tail (mapErase ts k) cs hrest]
      have hdc : drainedCalls ((k, msgs) :: rest) oks
          = drainedCalls rest oks.tail := by
        rw [drainedCalls, if_pos hl]
      rw [hdc]
      rfl
    · have hc : (drainStep (oks.headD true)
            ⟨(k, msgs) :: rest, ts, cs, n⟩ k).calls
          = cs ++ [(⟨msgs, "openclaw", k, oks.headD true⟩ : ExtractCall)] := by
        rw [drainStep]
        exact flushBuffer_calls_large _ _ _ msgs hlk (not_lt.mp hl)
      have hstep : drainStep (oks.headD true)
            ⟨(k, msgs) :: rest, ts, cs, n⟩ k
          = (⟨rest, mapErase ts k,
              cs ++ [(⟨msgs, "openclaw", k, oks.headD true⟩ : ExtractCall)],
              n⟩ : PluginState) :=
        pluginState_ext hbuf htim hc hnt
      rw [hmain, hstep, ih oks.tail (mapErase ts k)
        (cs ++ [(⟨msgs, "openclaw", k, oks.headD true⟩ : ExtractCall)]) hrest]
      have hdc : drainedCalls ((k, msgs) :: rest) oks
          = (⟨msgs, "openclaw", k, oks.headD true⟩ : ExtractCall) ::
              drainedCalls rest oks.tail := by
        rw [drainedCalls, if_neg hl]
      rw [hdc, List.append_assoc]
      rfl

/-- C9: on shutdown the stop handler flushes the buffered channels one at a
time, in the insertion order of the buffer store (the order each current key
was first registered), cancelling every buffered channel's pending timer;
afterwards the buffer store is empty, the calls made are exactly one per
channel at or above the 4-message floor (in that order, with the channel's
full content), and channels below the floor are discarded with zero
collaborator calls — every drained batch has at least 4 messages. -/
theorem shutdown_drain_spec (st : PluginState) (oks : List Bool)
    (hnd : (mapKeys st.messageBuffers).Nodup) :
    (stopHandler oks st).messageBuffers = [] ∧
    (stopHandler oks st).calls
      = st.calls ++ drainedCalls st.messageBuffers oks ∧
    (stopHandler oks st).silenceTimers
      = removeKeys st.silenceTimers (mapKeys st.messageBuffers) ∧
    (∀ k ∈ mapKeys st.messageBuffers,
      mapLookup (stopHandler oks st).silenceTimers k = none) ∧
    (∀ c ∈ drainedCalls st.messageBuffers oks, 4 ≤ c.messages.length) := by
  obtain ⟨bs, ts, cs, n⟩ := st
  have h : stopHandler oks ⟨bs, ts, cs, n⟩
      = ⟨[], removeKeys ts (mapKeys bs), cs ++ drainedCalls bs oks, n⟩ :=
    drainKeys_spec bs oks ts cs n hnd
  rw [h]
  refine ⟨rfl, rfl, rfl, ?_, drainedCalls_min_length bs oks⟩
  intro k hk
  exact lookup_removeKeys_none ts (mapKeys bs) k hk

theorem shutdown_drain_spec_witness :
    (stopHandler [true, true] stDrain).messageBuffers = [] ∧
    (stopHandler [true, true] stDrain).calls
      = stDrain.calls ++ drainedCalls stDrain.messageBuffers [true, true] ∧
    (stopHandler [true, true] stDrain).silenceTimers
      = removeKeys stDrain.silenceTimers (mapKeys stDrain.messageBuffers) ∧
    mapLookup (stopHandler [true, true] stDrain).silenceTimers "alpha"
      = none ∧
    mapLookup (stopHandler [true, true] stDrain).silenceTimers "beta"
      = none := by
  have h := shutdown_drain_spec stDrain [true, true] (by decide)
  exact ⟨h.1, h.2.1, h.2.2.1, h.2.2.2.1 "alpha" (by decide),
    h.2.2.2.1 "beta" (by decide)⟩
